import Mathlib

/-!
Verification development for the Amnezichat IRC bridge.

The Rust sources are shallowly embedded: string routines are modelled on
the underlying character lists, the scripted network reads of the IRC
handshake are modelled as lists of incoming lines, and the symmetric
encryption routines (an external collaborator of the bridge) are
parameters of type String to Option String.  Fueled recursion (fuel equal
to the input length) stands in for the worklist loops of the Rust regex
replacements so that every definition evaluates by kernel reduction.
-/

set_option maxRecDepth 4000

/-! ## Character-list string primitives -/

/-- Boolean test that the first list is a leading segment of the second,
mirroring how Rust str.starts_with compares character by character. -/
def isPfx : List Char → List Char → Bool
  | [], _ => true
  | _ :: _, [] => false
  | a :: as, b :: bs => a == b && isPfx as bs

/-- Substring containment on character lists, mirroring Rust str.contains. -/
def containsSub (pat : List Char) : List Char → Bool
  | [] => isPfx pat []
  | c :: t => isPfx pat (c :: t) || containsSub pat t

/-- Rust str.contains on strings. -/
def strContains (s pat : String) : Bool := containsSub pat.data s.data

/-- Split at the first occurrence of pat, returning the part before the
occurrence and the part after it, mirroring Rust str.find plus slicing
and str.split_once. -/
def splitFirstL (pat : List Char) : List Char → Option (List Char × List Char)
  | [] => if isPfx pat [] then some ([], []) else none
  | c :: t =>
    if isPfx pat (c :: t) then some ([], (c :: t).drop pat.length)
    else
      match splitFirstL pat t with
      | some (b, a) => some (c :: b, a)
      | none => none

/-- Remove leading whitespace characters. -/
def trimL : List Char → List Char
  | [] => []
  | c :: t => if c.isWhitespace then trimL t else c :: t

/-- Remove leading and trailing whitespace, mirroring Rust str.trim. -/
def trimChars (l : List Char) : List Char := (trimL (trimL l).reverse).reverse

/-- Rust str.trim on strings. -/
def strTrim (s : String) : String := ⟨trimChars s.data⟩

/-- Rust str.starts_with on strings. -/
def strStartsWith (s pat : String) : Bool := isPfx pat.data s.data

/-- Drop the first n characters of a string, mirroring Rust slicing at a
character boundary. -/
def strDrop (s : String) (n : Nat) : String := ⟨s.data.drop n⟩

/-- Rust str.is_empty. -/
def strIsEmpty (s : String) : Bool := s.data.isEmpty

/-- Rust str.split_once on strings. -/
def splitOnceStr (s pat : String) : Option (String × String) :=
  match splitFirstL pat.data s.data with
  | some (b, a) => some (⟨b⟩, ⟨a⟩)
  | none => none

/-- All leading colon characters removed, mirroring Rust
str.trim_start_matches applied to a colon, which removes the matching
character repeatedly. -/
def dropLeadingColons : List Char → List Char
  | ':' :: t => dropLeadingColons t
  | l => l

/-- Rust str.splitn with a space separator: at most n fields, the last
field keeps the remainder unsplit, consecutive separators yield empty
fields. -/
def splitnSp : Nat → List Char → List (List Char)
  | 0, _ => []
  | 1, l => [l]
  | n + 2, l =>
    match splitFirstL [' '] l with
    | none => [l]
    | some (b, a) => b :: splitnSp (n + 1) a

/-- The part of a string before its first exclamation mark, or the whole
string when there is none, mirroring Rust str.split at the bang followed
by next. -/
def beforeBang (s : String) : String :=
  match splitFirstL ['!'] s.data with
  | some (b, _) => ⟨b⟩
  | none => s

/-- Single left-to-right pass replacing every non-overlapping occurrence
of the pattern (given as head and tail, hence nonempty) with rep,
mirroring Rust str.replace.  Fuel bounds the recursion; it is
instantiated with the input length, which the pattern consumption never
outruns. -/
def replaceGo (p : Char) (ps rep : List Char) : Nat → List Char → List Char
  | _, [] => []
  | 0, l => l
  | fuel + 1, c :: t =>
    if isPfx (p :: ps) (c :: t) then rep ++ replaceGo p ps rep fuel (t.drop ps.length)
    else c :: replaceGo p ps rep fuel t

/-- Rust str.replace on strings (identity for an empty pattern, which the
bridge never uses). -/
def strReplaceAll (s pat rep : String) : String :=
  match pat.data with
  | [] => s
  | p :: ps => ⟨replaceGo p ps rep.data s.data.length s.data⟩

/-- Scan for the earliest occurrence of the closing tag (given nonempty as
head and tail) that is reachable without crossing a newline, mirroring
how the lazy dot of the Rust regex crate matches any character except a
newline.  Returns the remainder after the closing tag. -/
def findSpanEnd (c0 : Char) (cs : List Char) : List Char → Option (List Char)
  | [] => none
  | c :: t =>
    if isPfx (c0 :: cs) (c :: t) then some (t.drop cs.length)
    else if c == '\n' then none
    else findSpanEnd c0 cs t

/-- Remove every span that starts with the opening tag and runs lazily to
the nearest closing tag on the same line, mirroring
Regex.replace_all with an empty replacement for a pattern of the shape
open-tag, lazy dot-star, close-tag.  Fuel is instantiated with the input
length. -/
def removeSpansGo (o0 : Char) (os : List Char) (c0 : Char) (cs : List Char) :
    Nat → List Char → List Char
  | _, [] => []
  | 0, l => l
  | fuel + 1, c :: t =>
    if isPfx (o0 :: os) (c :: t) then
      match findSpanEnd c0 cs (t.drop os.length) with
      | some rest => removeSpansGo o0 os c0 cs fuel rest
      | none => c :: removeSpansGo o0 os c0 cs fuel t
    else c :: removeSpansGo o0 os c0 cs fuel t

/-- Span removal on strings for nonempty opening and closing tags. -/
def removeSpansStr (s opn cls : String) : String :=
  match opn.data, cls.data with
  | o0 :: os, c0 :: cs => ⟨removeSpansGo o0 os c0 cs s.data.length s.data⟩
  | _, _ => s

/-! ## UTF-8 and base64 encoding (bridge.rs uses base64 for SASL PLAIN) -/

/-- UTF-8 encoding of one character as byte values, as Rust
str.as_bytes produces. -/
def utf8Bytes (c : Char) : List Nat :=
  let n := c.toNat
  if n < 128 then [n]
  else if n < 2048 then [192 + n / 64, 128 + n % 64]
  else if n < 65536 then [224 + n / 4096, 128 + n / 64 % 64, 128 + n % 64]
  else [240 + n / 262144, 128 + n / 4096 % 64, 128 + n / 64 % 64, 128 + n % 64]

/-- The UTF-8 bytes of a string. -/
def strBytes (s : String) : List Nat := (s.data.map utf8Bytes).flatten

/-- The byte length of a string, as Rust str.len reports. -/
def utf8Len (s : String) : Nat := (strBytes s).length

/-- The standard base64 alphabet. -/
def b64Alphabet : List Char :=
  "ABCDEFGHIJKLMNOPQRSTUVWXYZabcdefghijklmnopqrstuvwxyz0123456789+/".data

/-- The base64 digit for a 6-bit value. -/
def b64Char (n : Nat) : Char := b64Alphabet.getD n '?'

/-- Standard base64 with padding over a byte list, as the Rust base64
crate general_purpose STANDARD engine encodes. -/
def b64Chunks : List Nat → List Char
  | [] => []
  | [a] => [b64Char (a / 4), b64Char (a % 4 * 16), '=', '=']
  | [a, b] => [b64Char (a / 4), b64Char (a % 4 * 16 + b / 16), b64Char (b % 16 * 4), '=']
  | a :: b :: c :: rest =>
    b64Char (a / 4) :: b64Char (a % 4 * 16 + b / 16) ::
      b64Char (b % 16 * 4 + c / 64) :: b64Char (c % 64) :: b64Chunks rest

/-- Base64 encoding of a byte list as a string. -/
def b64encode (bytes : List Nat) : String := ⟨b64Chunks bytes⟩

/-! ## network_operations.rs: fetching, extraction and payload cleaning -/

/-- The BEGIN wrapper marker of the room-service message format. -/
def beginMark : List Char := "-----BEGIN ENCRYPTED MESSAGE-----".data

/-- The END wrapper marker of the room-service message format. -/
def endMark : List Char := "-----END ENCRYPTED MESSAGE-----".data

/-- True when no newline character occurs in the list. -/
def noNewline (l : List Char) : Bool := l.all (fun c => !(c == '\n'))

/-- Iterated leftmost matching of the wrapper regex of
receive_and_fetch_messages: BEGIN marker, greedy whitespace, lazy
non-newline capture, greedy whitespace, END marker.  A match at a BEGIN
marker exists exactly when the text up to the earliest END marker trims
to a newline-free core, and the capture is that trimmed core; on failure
the scan advances one character, and after a match it resumes after the
END marker, as captures_iter does.  Fuel is instantiated with the input
length. -/
def extractGo : Nat → List Char → List (List Char)
  | _, [] => []
  | 0, _ => []
  | fuel + 1, c :: t =>
    if isPfx beginMark (c :: t) then
      match splitFirstL endMark ((c :: t).drop beginMark.length) with
      | some (between, rest) =>
        if noNewline (trimChars between) then trimChars between :: extractGo fuel rest
        else extractGo fuel t
      | none => extractGo fuel t
    else extractGo fuel t

/-- The wrapped payload captures of a fetched body, in order. -/
def extractPayloads (body : String) : List String :=
  (extractGo body.data.length body.data).map fun l => ⟨l⟩

/-- The unpad_message helper of receive_and_fetch_messages: when both the
opening and the closing padding tag occur, the text before the first
opening tag is concatenated with the text after the first closing tag
(the two positions are located independently, exactly as the Rust code
calls find twice); otherwise the message is returned unchanged. -/
def unpad_message (message : String) : String :=
  match splitFirstL "<padding>".data message.data,
        splitFirstL "</padding>".data message.data with
  | some (before, _), some (_, after) => ⟨before ++ after⟩
  | _, _ => message

/-- The per-payload cleaning pipeline of receive_and_fetch_messages:
unpad, strip the strong tags, then remove pfp and media spans. -/
def cleanMessage (decrypted : String) : String :=
  let unpadded := unpad_message decrypted
  let cleaned := strReplaceAll (strReplaceAll unpadded "<strong>" "") "</strong>" ""
  let cleaned := removeSpansStr cleaned "<pfp>" "</pfp>"
  removeSpansStr cleaned "<media>" "</media>"

/-- The payload loop of receive_and_fetch_messages: each capture is
trimmed and decrypted (decryption is the external encryption
collaborator, modelled as a parameter); a failed decryption skips the
occurrence; a cleaned text containing the dummy-data token is dropped;
every other cleaned text is kept in order. -/
def processPayloads (decrypt : String → Option String) : List String → List String
  | [] => []
  | p :: rest =>
    match decrypt (strTrim p) with
    | none => processPayloads decrypt rest
    | some d =>
      let cleaned := cleanMessage d
      if strContains cleaned "[DUMMY_DATA]:" then processPayloads decrypt rest
      else cleaned :: processPayloads decrypt rest

/-- receive_and_fetch_messages on a successfully fetched body: extract
the wrapped payloads and run the payload loop; the function returns Ok
with the surviving messages (its error cases concern only the HTTP
transport, which is outside the embedded body processing). -/
def receive_and_fetch_messages (decrypt : String → Option String) (body : String) :
    Except String (List String) :=
  .ok (processPayloads decrypt (extractPayloads body))

/-! ## bridge.rs: line parsing, sanitation, handshake, loops -/

/-- parse_irc_message from bridge.rs: trim the raw line, reject it unless
it contains PRIVMSG, split into at most four space-separated fields,
reject fewer than four, take the nick as everything before the first
bang of the whole trimmed line after removing one leading colon, the
target as the third field, and the message as the fourth field with all
leading colons removed. -/
def parse_irc_message (raw : String) : Option (String × String × String) :=
  let t := strTrim raw
  if strContains t "PRIVMSG" = false then none
  else
    let parts := splitnSp 4 t.data
    if parts.length < 4 then none
    else
      let pfx := if strStartsWith t ":" then strDrop t 1 else t
      let nick := beforeBang pfx
      let target : String := ⟨parts.getD 2 []⟩
      let msg : String := ⟨dropLeadingColons (parts.getD 3 [])⟩
      some (target, msg, nick)

/-- The claim C4 reading of the parser, written from the words of the
specification: the sender is the token before the bang inside the origin
prefix, that is the first field with its leading colon removed (the
whole such field when the bang is absent), and the message is the fourth
field with one leading colon stripped. -/
def parse_irc_claimed (raw : String) : Option (String × String × String) :=
  let t := strTrim raw
  if strContains t "PRIVMSG" = false then none
  else
    let parts := splitnSp 4 t.data
    if parts.length < 4 then none
    else
      let field0 : String := ⟨parts.getD 0 []⟩
      let originPfx := if strStartsWith field0 ":" then strDrop field0 1 else field0
      let sender := beforeBang originPfx
      let target : String := ⟨parts.getD 2 []⟩
      let field3 : String := ⟨parts.getD 3 []⟩
      let msg := if strStartsWith field3 ":" then strDrop field3 1 else field3
      some (target, msg, sender)

/-- The amended C4 description of the parser, with the sender taken from
the whole trimmed line and all leading colons stripped from the message,
stated over the split fields directly. -/
def parse_irc_amended (raw : String) : Option (String × String × String) :=
  let t := strTrim raw
  if strContains t "PRIVMSG" then
    match splitnSp 4 t.data with
    | _ :: _ :: p2 :: p3 :: _ =>
      let pfx := if strStartsWith t ":" then strDrop t 1 else t
      some (⟨p2⟩, ⟨dropLeadingColons p3⟩, beforeBang pfx)
    | _ => none
  else none

/-- The sanitation step of CustomIrcClient.send_message: every carriage
return and newline becomes one space, then the text is cut to 400
characters. -/
def sanitize_text (m : String) : String :=
  ⟨((m.data.map fun c => if c = '\r' ∨ c = '\n' then ' ' else c).take 400)⟩

/-- The full line that CustomIrcClient.send_message writes to the socket
for a target and a message. -/
def send_message (tgt m : String) : String :=
  "PRIVMSG " ++ tgt ++ " :" ++ sanitize_text m ++ "\r\n"

/-- Error outcomes of the scripted handshake, matching the io error kinds
that connect_and_auth produces: PermissionDenied on a SASL rejection and
UnexpectedEof when the scripted input ends. -/
inductive IrcError
  | permissionDenied
  | unexpectedEof
deriving DecidableEq

/-- The CAP acknowledgment wait condition of connect_and_auth. -/
def capAckPred (l : String) : Bool :=
  strContains l "CAP" && strContains l "ACK" && strContains l "sasl"

/-- The AUTHENTICATE continuation wait condition of connect_and_auth. -/
def authContPred (l : String) : Bool := strTrim l == "AUTHENTICATE +"

/-- The end-of-MOTD wait condition of connect_and_auth: numeric 376 or
numeric 422. -/
def motdPred (l : String) : Bool := strContains l "376" || strContains l "422"

/-- Consume scripted input lines until one satisfies the condition,
returning the remaining script; an exhausted script models the
UnexpectedEof that receive_message reports on a closed stream. -/
def readUntil (p : String → Bool) : List String → Option (List String)
  | [] => none
  | l :: rest => if p l then some rest else readUntil p rest

/-- Outcome of the SASL result wait loop of connect_and_auth: a line
containing 903 succeeds, otherwise a line containing 904 or 905 rejects,
otherwise the loop continues. -/
inductive SaslOutcome
  | success (rest : List String)
  | rejected
  | eof

/-- The SASL result wait loop over the scripted input. -/
def readSaslResult : List String → SaslOutcome
  | [] => .eof
  | l :: rest =>
    if strContains l "903" then .success rest
    else if strContains l "904" || strContains l "905" then .rejected
    else readSaslResult rest

/-- The AUTHENTICATE line carrying the base64 encoded NUL separated SASL
PLAIN credentials, exactly as connect_and_auth formats it. -/
def saslPlainLine (user pass : String) : String :=
  "AUTHENTICATE " ++ b64encode (strBytes ("\x00" ++ user ++ "\x00" ++ pass)) ++ "\r\n"

/-- The unconditional registration tail of connect_and_auth: send NICK
and USER, wait for the end of the MOTD, then send JOIN.  The result
pairs the outcome with the raw lines sent during this phase. -/
def registerAndJoin (nick chan : String) (input : List String) :
    Except IrcError Unit × List String :=
  let sent := ["NICK " ++ nick ++ "\r\n", "USER " ++ nick ++ " 0 * :" ++ nick ++ "\r\n"]
  match readUntil motdPred input with
  | none => (.error .unexpectedEof, sent)
  | some _ => (.ok (), sent ++ ["JOIN " ++ chan ++ "\r\n"])

/-- CustomIrcClient.connect_and_auth over a scripted list of server
reply lines: with credentials it runs the SASL handshake (capability
request, ack wait, mechanism selection, continuation wait, credential
send, result wait, capability end) and then registers and joins; without
credentials it registers and joins directly.  The result pairs the
outcome with every raw line sent, in order. -/
def connect_and_auth (nick chan : String) (saslUser saslPass : Option String)
    (input : List String) : Except IrcError Unit × List String :=
  match saslUser, saslPass with
  | some user, some pass =>
    let s0 := ["CAP REQ :sasl\r\n"]
    match readUntil capAckPred input with
    | none => (.error .unexpectedEof, s0)
    | some in1 =>
      let s1 := s0 ++ ["AUTHENTICATE PLAIN\r\n"]
      match readUntil authContPred in1 with
      | none => (.error .unexpectedEof, s1)
      | some in2 =>
        let s2 := s1 ++ [saslPlainLine user pass]
        match readSaslResult in2 with
        | .eof => (.error .unexpectedEof, s2)
        | .rejected => (.error .permissionDenied, s2)
        | .success in3 =>
          let s3 := s2 ++ ["CAP END\r\n"]
          let (res, sentReg) := registerAndJoin nick chan in3
          (res, s3 ++ sentReg)
  | _, _ => registerAndJoin nick chan input

/-- The doubling backoff of reconnect_irc, capped at sixty seconds. -/
def backoffNext (d : Nat) : Nat := min (d * 2) 60

/-- The retry loop of reconnect_irc over scripted connection attempts:
some c is a successful connect_and_auth producing connection c, none is
a failure.  On failure the loop sleeps the current delay (recorded in
the returned list) and doubles it with the cap; on success it stops and
the new connection replaces the shared client (returned as the second
component).  A script with no success gives none, matching a loop that
is still retrying. -/
def reconnectLoop : List (Option Nat) → Nat → Option (List Nat × Nat)
  | [], _ => none
  | some c :: _, _ => some ([], c)
  | none :: rest, d =>
    match reconnectLoop rest (backoffNext d) with
    | some (ds, c) => some (d :: ds, c)
    | none => none

/-- reconnect_irc starts its delay at five seconds. -/
def reconnect_irc (attempts : List (Option Nat)) : Option (List Nat × Nat) :=
  reconnectLoop attempts 5

/-- The leading AMZ marker strip of the polling loop: remove the marker
when present, otherwise keep the message, mirroring
m.strip of the AMZ token with unwrap_or_else. -/
def stripAMZ (m : String) : String :=
  if strStartsWith m "[AMZ]" then strDrop m 5 else m

/-- The display transformation of the polling loop: a text of the shape
name, colon, space, body becomes the IRC formatted line with the control
codes for bold and color; any other text passes through unchanged. -/
def transformPoll (content : String) : String :=
  match splitOnceStr content ": " with
  | some (user, msg) => "\x02\x0311" ++ strTrim user ++ " >\x02\x03 " ++ strTrim msg
  | none => content

/-- State of the polling loop: the room-service dedup set (seen_amz,
modelled as a list with set membership) and the dispatch queue toward
the IRC side in submission order. -/
structure PollState where
  seen : List String
  queue : List (String × String)

/-- One fetched message handled by the polling loop of Bridge.new: skip
it when its raw text is already in the dedup set; otherwise record it,
strip the optional AMZ marker, and unless the remainder starts with the
IRC origin marker, enqueue the transformed text for the channel. -/
def pollStep (chan : String) (st : PollState) (m : String) : PollState :=
  if m ∈ st.seen then st
  else
    let seen2 := m :: st.seen
    let content := stripAMZ m
    if strStartsWith content "[IRC]" then { seen := seen2, queue := st.queue }
    else { seen := seen2, queue := st.queue ++ [(chan, transformPoll content)] }

/-- The polling loop over one fetched batch, in order. -/
def pollRun (chan : String) (st : PollState) : List String → PollState
  | [] => st
  | m :: rest => pollRun chan (pollStep chan st m) rest

/-- The number of fetched messages that are duplicates: already in the
dedup set, or equal to an earlier message of the same batch. -/
def dupCount : List String → List String → Nat
  | _, [] => 0
  | seen, m :: rest => (if m ∈ seen then 1 else 0) + dupCount (m :: seen) rest

/-- Observable actions of one outbound relay loop iteration: a PONG
answer, the in-channel identification reply, or a formatted message
forwarded (after encryption by the external collaborator) to the room
service. -/
inductive RelayOut
  | pong (line : String)
  | reply (target text : String)
  | forward (text : String)
deriving DecidableEq

/-- The static identification reply of the outbound relay loop. -/
def amnezichatInfo (nick : String) : String :=
  nick ++ ": Anti-forensic and secure messenger. Source code: https://github.com/Amnezichat/Amnezichat"

/-- The protocol-origin dedup fingerprint: nick, colon, message. -/
def relayKey (nick msg : String) : String := nick ++ ":" ++ msg

/-- One received raw line handled by the outbound relay loop of
Bridge.new: answer pings; otherwise parse as a direct message; skip on a
known fingerprint; otherwise record the fingerprint first, then either
answer the about command, drop an AMZ marked message, or forward the
IRC marked formatted text. -/
def relayStep (seen : List String) (raw : String) : List String × List RelayOut :=
  if strStartsWith raw "PING" then (seen, [.pong (strReplaceAll raw "PING" "PONG")])
  else
    match parse_irc_message raw with
    | none => (seen, [])
    | some (target, msg, nick) =>
      if relayKey nick msg ∈ seen then (seen, [])
      else
        let seen2 := relayKey nick msg :: seen
        if strTrim msg == ".amnezichat" then (seen2, [.reply target (amnezichatInfo nick)])
        else if strStartsWith msg "[AMZ]" then (seen2, [])
        else (seen2, [.forward ("[IRC]<strong>" ++ nick ++ "</strong>: " ++ msg)])

/-- True for the identification reply action. -/
def isReply : RelayOut → Bool
  | .reply _ _ => true
  | _ => false

/-- True when this raw line, under the given dedup state, both parses to
the given nick and message and causes the relay step to emit the
identification reply. -/
def stepRepliesTo (seen : List String) (raw nick msg : String) : Bool :=
  (match parse_irc_message raw with
   | some (_, m, n) => n == nick && m == msg
   | none => false)
  && (relayStep seen raw).2.any isReply

/-- The number of iterations of the outbound relay loop over the raw
line list that emit the identification reply for the given nick and
message pair, threading the dedup state like the loop does. -/
def replyStepsFor (nick msg : String) (seen : List String) : List String → Nat
  | [] => 0
  | raw :: rest =>
    (if stepRepliesTo seen raw nick msg then 1 else 0)
      + replyStepsFor nick msg (relayStep seen raw).1 rest

/-! ## main.rs: configuration validation and startup -/

/-- The operator supplied configuration collected by main. -/
structure AppState where
  amnezichat_url : String
  irc_url : String
  username : String
  is_group_chat : Bool
  room_id_input : String
  room_password : String
  irc_channel : String
  sasl_username : Option String
  sasl_password : Option String

/-- Externally visible effects of run_app_logic on its success path, in
program order: key derivation from the room password, spawning the
receiver polling task, and constructing the bridge. -/
inductive AppEffect
  | deriveKey
  | spawnReceiver
  | startBridge
deriving DecidableEq

/-- run_app_logic from main.rs: a configuration that is not a group chat
is rejected immediately, before any key derivation or bridge
construction; otherwise the effects run in order (the long-running
success path, which never returns, is abstracted to Ok). -/
def run_app_logic (st : AppState) : Except String Unit × List AppEffect :=
  if !st.is_group_chat then (.error "Group chat only", [])
  else (.ok (), [.deriveKey, .spawnReceiver, .startBridge])

/-- validate_and_start from main.rs: reject empty server URLs or an
empty username, and a group chat room password shorter than eight bytes;
otherwise hand over to run_app_logic. -/
def validate_and_start (st : AppState) : Except String Unit × List AppEffect :=
  if strIsEmpty st.amnezichat_url || strIsEmpty st.irc_url || strIsEmpty st.username
      || (st.is_group_chat && decide (utf8Len st.room_password < 8))
  then (.error "Missing or invalid inputs", [])
  else run_app_logic st

/-- Concrete decryption script for the isolation witness: fails on the
payload aaa and succeeds unchanged on everything else. -/
def decryptW (s : String) : Option String := if s == "aaa" then none else some s

/-! ## Helper lemmas -/

theorem dupCount_congr (ms : List String) : ∀ s1 s2 : List String,
    (∀ x, x ∈ s1 ↔ x ∈ s2) → dupCount s1 ms = dupCount s2 ms := by
  induction ms with
  | nil => intro s1 s2 _; rfl
  | cons m rest ih =>
    intro s1 s2 h
    simp only [dupCount]
    by_cases hx : m ∈ s1
    · rw [if_pos hx, if_pos ((h m).mp hx)]
      exact congrArg (1 + ·) (ih _ _ (fun x => by simp [h x]))
    · rw [if_neg hx, if_neg (fun hy => hx ((h m).mpr hy))]
      exact congrArg (0 + ·) (ih _ _ (fun x => by simp [h x]))

theorem dupCount_le (ms : List String) : ∀ s : List String, dupCount s ms ≤ ms.length := by
  induction ms with
  | nil => intro s; simp [dupCount]
  | cons m rest ih =>
    intro s
    simp only [dupCount, List.length_cons]
    have := ih (m :: s)
    by_cases hx : m ∈ s <;> simp [hx] <;> omega

theorem pollRun_queue_length (chan : String) : ∀ (ms : List String) (seen : List String)
    (q : List (String × String)),
    (∀ m ∈ ms, strStartsWith (stripAMZ m) "[IRC]" = false) →
    (pollRun chan ⟨seen, q⟩ ms).queue.length = q.length + (ms.length - dupCount seen ms) := by
  intro ms
  induction ms with
  | nil => intro seen q _; simp [pollRun, dupCount]
  | cons m rest ih =>
    intro seen q h
    have hm := h m (by simp)
    have hrest : ∀ x ∈ rest, strStartsWith (stripAMZ x) "[IRC]" = false :=
      fun x hx => h x (by simp [hx])
    by_cases hseen : m ∈ seen
    · have hstep : pollStep chan ⟨seen, q⟩ m = ⟨seen, q⟩ := by simp [pollStep, hseen]
      simp only [pollRun]
      rw [hstep, ih seen q hrest]
      have hd : dupCount (m :: seen) rest = dupCount seen rest := by
        refine dupCount_congr rest _ _ (fun x => ?_)
        constructor
        · intro hx
          rcases List.mem_cons.mp hx with h1 | h1
          · rw [h1]; exact hseen
          · exact h1
        · intro hx; exact List.mem_cons_of_mem _ hx
      simp only [dupCount, if_pos hseen, hd, List.length_cons]
      omega
    · have hstep : pollStep chan ⟨seen, q⟩ m
          = ⟨m :: seen, q ++ [(chan, transformPoll (stripAMZ m))]⟩ := by
        simp [pollStep, hseen, hm]
      simp only [pollRun]
      rw [hstep, ih (m :: seen) _ hrest]
      have hle := dupCount_le rest (m :: seen)
      simp only [dupCount, if_neg hseen, List.length_cons, List.length_append,
        List.length_singleton, List.length_nil, Nat.zero_add]
      omega

theorem pollStep_seen_mono (chan : String) (st : PollState) (m : String) :
    st.seen ⊆ (pollStep chan st m).seen := by
  by_cases hseen : m ∈ st.seen
  · simp [pollStep, hseen]
  · by_cases h2 : strStartsWith (stripAMZ m) "[IRC]" = true <;>
      simp [pollStep, hseen, h2]

theorem pollStep_seen_self (chan : String) (st : PollState) (m : String) :
    m ∈ (pollStep chan st m).seen := by
  by_cases hseen : m ∈ st.seen
  · simp [pollStep, hseen]
  · by_cases h2 : strStartsWith (stripAMZ m) "[IRC]" = true <;>
      simp [pollStep, hseen, h2]

theorem pollRun_seen_sub (chan : String) : ∀ (ms : List String) (st : PollState),
    ms ⊆ (pollRun chan st ms).seen ∧ st.seen ⊆ (pollRun chan st ms).seen := by
  intro ms
  induction ms with
  | nil =>
    intro st
    exact ⟨List.nil_subset _, fun x hx => hx⟩
  | cons m rest ih =>
    intro st
    obtain ⟨h1, h2⟩ := ih (pollStep chan st m)
    refine ⟨List.cons_subset.mpr ⟨h2 (pollStep_seen_self chan st m), ?_⟩, ?_⟩
    · simpa [pollRun] using h1
    · intro x hx
      simpa [pollRun] using h2 (pollStep_seen_mono chan st m hx)

theorem processPayloads_skip (decrypt : String → Option String) (p : String)
    (h : decrypt (strTrim p) = none) :
    ∀ ps qs : List String,
      processPayloads decrypt (ps ++ p :: qs) = processPayloads decrypt (ps ++ qs) := by
  intro ps
  induction ps with
  | nil => intro qs; simp [processPayloads, h]
  | cons a t ih =>
    intro qs
    simp only [List.cons_append, processPayloads]
    cases hd : decrypt (strTrim a) with
    | none => exact ih qs
    | some d => split <;> simp [ih qs]

theorem min_cap_mul_pow (x i : Nat) : min (min x 60 * 2 ^ i) 60 = min (x * 2 ^ i) 60 := by
  rcases Nat.le_total x 60 with h | h
  · rw [Nat.min_eq_left h]
  · rw [Nat.min_eq_right h]
    have h1 : (0 : Nat) < 2 ^ i := Nat.lt_of_lt_of_le Nat.zero_lt_one Nat.one_le_two_pow
    have h2 : 60 ≤ 60 * 2 ^ i := Nat.le_mul_of_pos_right 60 h1
    have h3 : 60 * 2 ^ i ≤ x * 2 ^ i := Nat.mul_le_mul_right _ h
    rw [Nat.min_eq_right h2, Nat.min_eq_right (le_trans h2 h3)]

theorem reconnectLoop_fail_then_ok (c : Nat) (rest : List (Option Nat)) :
    ∀ (n d : Nat), d ≤ 60 →
      reconnectLoop (List.replicate n none ++ some c :: rest) d
        = some ((List.range n).map fun i => min (d * 2 ^ i) 60, c) := by
  intro n
  induction n with
  | zero => intro d _; simp [reconnectLoop]
  | succ k ih =>
    intro d hd
    have hunf : reconnectLoop (List.replicate (k + 1) none ++ some c :: rest) d
        = match reconnectLoop (List.replicate k none ++ some c :: rest) (backoffNext d) with
          | some (ds, c) => some (d :: ds, c)
          | none => none := by
      rw [List.replicate_succ]
      rfl
    rw [hunf, ih (backoffNext d) (min_le_right _ _)]
    rw [List.range_succ_eq_map, List.map_cons, List.map_map]
    simp only [Option.some.injEq, Prod.mk.injEq, and_true]
    congr 1
    · simp [Nat.min_eq_left hd]
    · refine List.map_congr_left (fun i _ => ?_)
      simp only [Function.comp_apply]
      unfold backoffNext
      rw [min_cap_mul_pow]
      congr 1
      rw [pow_succ]
      ring

theorem reconnectLoop_all_fail : ∀ (n d : Nat), reconnectLoop (List.replicate n none) d = none := by
  intro n
  induction n with
  | zero => intro d; rfl
  | succ k ih =>
    intro d
    rw [List.replicate_succ]
    simp only [reconnectLoop]
    rw [ih (backoffNext d)]

theorem relayStep_seen_mono (seen : List String) (raw k : String) (h : k ∈ seen) :
    k ∈ (relayStep seen raw).1 := by
  by_cases hping : strStartsWith raw "PING" = true
  · simpa [relayStep, hping] using h
  · cases hp : parse_irc_message raw with
    | none => simpa [relayStep, hping, hp] using h
    | some tmn =>
      obtain ⟨t, m, n⟩ := tmn
      by_cases hk : relayKey n m ∈ seen
      · simpa [relayStep, hping, hp, hk] using h
      · by_cases ha : strTrim m == ".amnezichat"
        · simp [relayStep, hping, hp, hk, ha, h]
        · by_cases hz : strStartsWith m "[AMZ]" = true
          · simp [relayStep, hping, hp, hk, ha, hz, h]
          · simp [relayStep, hping, hp, hk, ha, hz, h]

theorem stepRepliesTo_insert (seen : List String) (raw nick msg : String)
    (h : stepRepliesTo seen raw nick msg = true) :
    relayKey nick msg ∈ (relayStep seen raw).1 := by
  unfold stepRepliesTo at h
  rw [Bool.and_eq_true] at h
  obtain ⟨h1, h2⟩ := h
  cases hp : parse_irc_message raw with
  | none => rw [hp] at h1; exact absurd h1 (by simp)
  | some tmn =>
    obtain ⟨t, m, n⟩ := tmn
    rw [hp] at h1
    rw [Bool.and_eq_true, beq_iff_eq, beq_iff_eq] at h1
    obtain ⟨hn, hm⟩ := h1
    subst hn
    subst hm
    by_cases hping : strStartsWith raw "PING" = true
    · simp [relayStep, hping, isReply] at h2
    · by_cases hk : relayKey n m ∈ seen
      · simp [relayStep, hping, hp, hk] at h2
      · by_cases ha : strTrim m == ".amnezichat"
        · simp [relayStep, hping, hp, hk, ha]
        · by_cases hz : strStartsWith m "[AMZ]" = true
          · simp [relayStep, hping, hp, hk, ha, hz]
          · simp [relayStep, hping, hp, hk, ha, hz]

theorem stepRepliesTo_of_seen (seen : List String) (raw nick msg : String)
    (h : relayKey nick msg ∈ seen) :
    stepRepliesTo seen raw nick msg = false := by
  unfold stepRepliesTo
  cases hp : parse_irc_message raw with
  | none => simp
  | some tmn =>
    obtain ⟨t, m, n⟩ := tmn
    by_cases hn : n = nick
    · by_cases hm : m = msg
      · subst hn
        subst hm
        by_cases hping : strStartsWith raw "PING" = true
        · simp [relayStep, hping, isReply]
        · simp [relayStep, hping, hp, h]
      · simp [hm]
    · simp [hn]

theorem replyStepsFor_of_seen (nick msg : String) :
    ∀ (raws : List String) (seen : List String), relayKey nick msg ∈ seen →
      replyStepsFor nick msg seen raws = 0 := by
  intro raws
  induction raws with
  | nil => intro seen _; rfl
  | cons raw rest ih =>
    intro seen h
    simp only [replyStepsFor]
    rw [ih ((relayStep seen raw).1) (relayStep_seen_mono seen raw _ h)]
    simp [stepRepliesTo_of_seen seen raw nick msg h]

theorem replyStepsFor_le_one (nick msg : String) :
    ∀ (raws : List String) (seen : List String), replyStepsFor nick msg seen raws ≤ 1 := by
  intro raws
  induction raws with
  | nil => intro seen; simp [replyStepsFor]
  | cons raw rest ih =>
    intro seen
    simp only [replyStepsFor]
    by_cases hs : stepRepliesTo seen raw nick msg = true
    · rw [if_pos hs,
        replyStepsFor_of_seen nick msg rest _ (stepRepliesTo_insert seen raw nick msg hs)]
    · rw [if_neg hs]
      simpa using ih ((relayStep seen raw).1)

/-! ## Claim theorems -/

/-- C1, counterexample to the claim as stated: a batch consisting of one
fresh message that carries the IRC origin marker has N equal to one and
K equal to zero, yet the polling loop enqueues nothing, so the outbound
count differs from N minus K. -/
theorem dedup_idempotence_ce :
    (pollRun "#chan" ⟨[], []⟩ ["[IRC]x"]).queue.length
      ≠ (["[IRC]x"] : List String).length - dupCount [] ["[IRC]x"] := by
  decide

/-- C1, amended: over any batch of fetched messages none of which carries
the IRC origin marker after the optional AMZ strip, the polling loop
enqueues exactly N minus K dispatch items, where K counts the messages
already in the dedup set or repeated earlier in the batch; moreover
every batch message and every previously recorded fingerprint is in the
dedup set afterwards. -/
theorem dedup_idempotence (chan : String) (seen : List String)
    (q : List (String × String)) (ms : List String)
    (h : ∀ m ∈ ms, strStartsWith (stripAMZ m) "[IRC]" = false) :
    (pollRun chan ⟨seen, q⟩ ms).queue.length = q.length + (ms.length - dupCount seen ms)
    ∧ ms ⊆ (pollRun chan ⟨seen, q⟩ ms).seen
    ∧ seen ⊆ (pollRun chan ⟨seen, q⟩ ms).seen :=
  ⟨pollRun_queue_length chan ms seen q h,
   (pollRun_seen_sub chan ms ⟨seen, q⟩).1,
   (pollRun_seen_sub chan ms ⟨seen, q⟩).2⟩

/-- Witness for the amended C1 theorem: a batch of four messages against
a dedup set already holding one of them contains two duplicates, and
exactly two dispatch items are enqueued. -/
theorem dedup_idempotence_witness :
    (pollRun "#c" ⟨["a"], []⟩ ["a", "b", "b", "u: hi"]).queue.length
        = ([] : List (String × String)).length
            + ((["a", "b", "b", "u: hi"] : List String).length
                - dupCount ["a"] ["a", "b", "b", "u: hi"])
    ∧ (["a", "b", "b", "u: hi"] : List String)
        ⊆ (pollRun "#c" ⟨["a"], []⟩ ["a", "b", "b", "u: hi"]).seen
    ∧ (["a"] : List String) ⊆ (pollRun "#c" ⟨["a"], []⟩ ["a", "b", "b", "u: hi"]).seen :=
  dedup_idempotence "#c" ["a"] [] ["a", "b", "b", "u: hi"] (by decide)

/-- C2: a fetched message whose content starts with the IRC origin
marker after the optional AMZ strip never adds a dispatch item; the
polling step leaves the queue unchanged. -/
theorem loop_prevention (chan : String) (st : PollState) (m : String)
    (h : strStartsWith (stripAMZ m) "[IRC]" = true) :
    (pollStep chan st m).queue = st.queue := by
  by_cases hseen : m ∈ st.seen <;> simp [pollStep, hseen, h]

/-- Witness for C2: an IRC marked message against an empty state
enqueues nothing. -/
theorem loop_prevention_witness :
    (pollStep "#c" ⟨[], []⟩ "[IRC]x").queue = ([] : List (String × String)) :=
  loop_prevention "#c" ⟨[], []⟩ "[IRC]x" (by decide)

/-- C3: with credentials supplied, the scripted replies CAP ACK sasl,
AUTHENTICATE continuation, a 903 line and an end-of-MOTD line drive
connect_and_auth to success with CAP END, NICK, USER and JOIN sent after
the credential line; with a 904 line in place of the 903 line it returns
the rejection error having sent only the capability request, the
mechanism selection and the credential line — no CAP END, no NICK, no
JOIN. -/
theorem sasl_handshake_determinism (nick chan user pass : String) :
    connect_and_auth nick chan (some user) (some pass)
        [":server CAP * ACK :sasl", "AUTHENTICATE +",
         ":server 903 :SASL authentication successful", ":server 376 :End of MOTD"]
      = (.ok (), ["CAP REQ :sasl\r\n", "AUTHENTICATE PLAIN\r\n", saslPlainLine user pass,
                  "CAP END\r\n", "NICK " ++ nick ++ "\r\n",
                  "USER " ++ nick ++ " 0 * :" ++ nick ++ "\r\n", "JOIN " ++ chan ++ "\r\n"])
    ∧ connect_and_auth nick chan (some user) (some pass)
        [":server CAP * ACK :sasl", "AUTHENTICATE +", ":server 904 :SASL authentication failed"]
      = (.error .permissionDenied,
         ["CAP REQ :sasl\r\n", "AUTHENTICATE PLAIN\r\n", saslPlainLine user pass]) :=
  ⟨rfl, rfl⟩

/-- C4, counterexample to the claim as stated: when the origin prefix
has no bang the parser takes the whole trimmed line as the sender, not
the origin prefix field, and a fourth field starting with two colons
loses both, not one. -/
theorem parse_irc_claim_ce :
    parse_irc_message ":srv PRIVMSG #c :hello" ≠ parse_irc_claimed ":srv PRIVMSG #c :hello"
    ∧ parse_irc_message ":a!u PRIVMSG #c ::hi" ≠ parse_irc_claimed ":a!u PRIVMSG #c ::hi" := by
  decide

/-- C4, amended: parse_irc_message rejects lines without PRIVMSG or with
fewer than four space separated fields, and otherwise returns the third
field as target, the fourth field with all leading colons stripped as
message, and as sender the text before the first bang of the whole
trimmed line after removing one leading colon (the whole such line when
no bang occurs). -/
theorem parse_irc_message_amended_eq (raw : String) :
    parse_irc_message raw = parse_irc_amended raw := by
  unfold parse_irc_message parse_irc_amended
  cases hc : strContains (strTrim raw) "PRIVMSG" with
  | false => simp [hc]
  | true =>
    simp only [hc]
    rcases hs : splitnSp 4 (strTrim raw).data with _ | ⟨a, _ | ⟨b, _ | ⟨c, _ | ⟨d, rest⟩⟩⟩⟩ <;>
      simp [hs, List.getD]

/-- C5: the sanitation of send_message leaves no carriage return and no
newline in the payload, cuts it to at most 400 characters, and the sent
line is a single PRIVMSG line framing the sanitized payload. -/
theorem line_sanitation (tgt m : String) :
    '\r' ∉ (sanitize_text m).data ∧ '\n' ∉ (sanitize_text m).data
    ∧ (sanitize_text m).length ≤ 400
    ∧ send_message tgt m = "PRIVMSG " ++ tgt ++ " :" ++ sanitize_text m ++ "\r\n" := by
  refine ⟨?_, ?_, ?_, rfl⟩
  · intro hr
    obtain ⟨c, _, hc⟩ := List.mem_map.mp (List.mem_of_mem_take hr)
    by_cases h : c = '\r' ∨ c = '\n'
    · rw [if_pos h] at hc
      exact absurd hc (by decide)
    · rw [if_neg h] at hc
      exact h (Or.inl hc)
  · intro hr
    obtain ⟨c, _, hc⟩ := List.mem_map.mp (List.mem_of_mem_take hr)
    by_cases h : c = '\r' ∨ c = '\n'
    · rw [if_pos h] at hc
      exact absurd hc (by decide)
    · rw [if_neg h] at hc
      exact h (Or.inr hc)
  · show ((m.data.map _).take 400).length ≤ 400
    rw [List.length_take]
    exact min_le_left _ _

/-- C6: a run of reconnect_irc whose first n attempts fail sleeps
exactly the capped doubling delays starting at five seconds, returns
only after an attempt succeeds (an all-failure script yields no result),
and hands back the successful connection that replaces the shared
client; after seven failures the delays are 5, 10, 20, 40, 60, 60, 60. -/
theorem backoff_growth (n : Nat) (c : Nat) (rest : List (Option Nat)) :
    reconnect_irc (List.replicate n none ++ some c :: rest)
        = some ((List.range n).map fun i => min (5 * 2 ^ i) 60, c)
    ∧ reconnect_irc (List.replicate n none) = none
    ∧ reconnect_irc (List.replicate 7 none ++ [some c])
        = some ([5, 10, 20, 40, 60, 60, 60], c) := by
  refine ⟨reconnectLoop_fail_then_ok c rest n 5 (by norm_num),
    reconnectLoop_all_fail n 5, ?_⟩
  have h := reconnectLoop_fail_then_ok c [] 7 5 (by norm_num)
  have hl : ((List.range 7).map fun i => min (5 * 2 ^ i) 60)
      = [5, 10, 20, 40, 60, 60, 60] := by decide
  rw [hl] at h
  exact h

/-- C7: the cleaning pipeline of receive_and_fetch_messages maps the
example payload with a padding span and strong tags to hellobob; a
decrypted payload whose cleaned text contains the dummy-data token is
excluded from the returned list, and one whose cleaned text does not is
returned cleaned. -/
theorem roundtrip_marker_stripping :
    cleanMessage "<padding>xxxx</padding>hello<strong>bob</strong>" = "hellobob"
    ∧ (∀ (decrypt : String → Option String) (p d : String),
        decrypt (strTrim p) = some d →
        strContains (cleanMessage d) "[DUMMY_DATA]:" = true →
        processPayloads decrypt [p] = [])
    ∧ (∀ (decrypt : String → Option String) (p d : String),
        decrypt (strTrim p) = some d →
        strContains (cleanMessage d) "[DUMMY_DATA]:" = false →
        processPayloads decrypt [p] = [cleanMessage d]) := by
  refine ⟨by decide, ?_, ?_⟩
  · intro decrypt p d h1 h2
    simp [processPayloads, h1, h2]
  · intro decrypt p d h1 h2
    simp [processPayloads, h1, h2]

/-- Witness for C7: an identity decryption of a payload containing the
dummy-data token yields an empty result list. -/
theorem roundtrip_marker_stripping_witness :
    processPayloads (fun s => some s) ["a[DUMMY_DATA]:b"] = [] :=
  roundtrip_marker_stripping.2.1 (fun s => some s) "a[DUMMY_DATA]:b"
    (strTrim "a[DUMMY_DATA]:b") rfl (by decide)

/-- C8: when the wrapped payloads of a fetched body are some list with
one payload whose decryption fails, receive_and_fetch_messages still
returns Ok and its result is exactly the processing of the remaining
payloads: the failing occurrence is skipped and every other payload is
delivered. -/
theorem decryption_failure_isolation (decrypt : String → Option String) (body : String)
    (ps qs : List String) (p : String)
    (hx : extractPayloads body = ps ++ p :: qs)
    (h : decrypt (strTrim p) = none) :
    receive_and_fetch_messages decrypt body
      = .ok (processPayloads decrypt (ps ++ qs)) := by
  unfold receive_and_fetch_messages
  rw [hx, processPayloads_skip decrypt p h ps qs]

/-- Witness for C8: a body with two wrapped payloads of which the first
fails to decrypt still yields the second one. -/
theorem decryption_failure_isolation_witness :
    receive_and_fetch_messages decryptW
        "-----BEGIN ENCRYPTED MESSAGE-----aaa-----END ENCRYPTED MESSAGE----- x -----BEGIN ENCRYPTED MESSAGE-----bbb-----END ENCRYPTED MESSAGE-----"
      = .ok (processPayloads decryptW ["bbb"]) :=
  decryption_failure_isolation decryptW
    "-----BEGIN ENCRYPTED MESSAGE-----aaa-----END ENCRYPTED MESSAGE----- x -----BEGIN ENCRYPTED MESSAGE-----bbb-----END ENCRYPTED MESSAGE-----"
    [] ["bbb"] "aaa" (by decide) (by decide)

/-- C9: a configuration that passes input validation (nonempty URLs and
username) but has the group chat flag off is rejected by run_app_logic
with the group-chat-only error before any key derivation, receiver
spawn or bridge construction: the effect list is empty. -/
theorem group_chat_only (st : AppState)
    (h1 : strIsEmpty st.amnezichat_url = false) (h2 : strIsEmpty st.irc_url = false)
    (h3 : strIsEmpty st.username = false) (h4 : st.is_group_chat = false) :
    validate_and_start st = (.error "Group chat only", []) := by
  simp [validate_and_start, run_app_logic, h1, h2, h3, h4]

/-- Witness for C9: a concrete non group chat configuration with filled
URLs and username is rejected with the group-chat-only error and no
effects. -/
theorem group_chat_only_witness :
    validate_and_start
        ⟨"http://s", "irc.example.net:6667", "nick", false, "room", "", "#c", none, none⟩
      = (.error "Group chat only", []) :=
  group_chat_only
    ⟨"http://s", "irc.example.net:6667", "nick", false, "room", "", "#c", none, none⟩
    (by decide) (by decide) (by decide) rfl

/-- C10: because the relay loop records the fingerprint before checking
for the about command, the identification reply is emitted at most once
per nick and message pair over any sequence of received lines, and never
when the fingerprint is already recorded: the reply count plus the prior
membership indicator is bounded by one. -/
theorem amnezichat_reply_once (seen : List String) (raws : List String) (nick msg : String) :
    replyStepsFor nick msg seen raws + (if relayKey nick msg ∈ seen then 1 else 0) ≤ 1 := by
  by_cases h : relayKey nick msg ∈ seen
  · rw [if_pos h, replyStepsFor_of_seen nick msg raws seen h]
  · rw [if_neg h]
    simpa using replyStepsFor_le_one nick msg raws seen
